import Mathlib

/-
Verification of the ciphare storage and lifecycle core.

The metadata store is MongoDB, accessed through MongoDBClient
(api/mongodb_client.py, embedded below).  The relevant collection is
`files`; `_create_indexes` installs a unique index on `file_id` and a TTL
index on `expires_at` with `expireAfterSeconds = 0`.  A database state is
modelled as the list of documents of the `files` collection, in insertion
order; `find?`-style scans mirror MongoDB's `find_one`/`update_one`, which
act on the first matching document.

Python `datetime` timestamps are modelled as integers (seconds);
`datetime.utcnow()` calls become explicit `now` parameters, one per call
site.  Python exceptions raised by a storage call are modelled by an extra
`raises : Bool` argument: the client methods wrap every body in
`try/except` and return a fallback value on exception, with no mutation
acknowledged.
-/

/-- A document of the `files` collection.  `file_id`, `created_at` and
`expires_at` are set by `store_file_metadata`; the remaining fields arrive
in the metadata dict built by the encode endpoint (not under src/), whose
shape follows the spec's FileRecord: `reads` is the mutable remaining-reads
counter (the field literally named `reads` that `update_file_reads`
decrements), `max_reads` the policy ceiling (0 = unlimited), `salt` and
`nonce` the cipher parameters. -/
structure FileDoc where
  file_id : String
  file_name : String
  salt : Nat
  nonce : Nat
  reads : Int
  max_reads : Int
  created_at : Int
  expires_at : Int
  deriving DecidableEq, Repr

/-- The `files` collection: documents in insertion order. -/
abbrev MetaDB := List FileDoc

/-- MongoDB `find_one({'file_id': fid})`: the first document whose
`file_id` equals `fid`, if any. -/
def findOne (db : MetaDB) (fid : String) : Option FileDoc :=
  db.find? (fun d => decide (d.file_id = fid))

/-- MongoDB `insert_one` under the unique index on `file_id` created by
`MongoDBClient._create_indexes`: if a document with the same `file_id`
already exists the insert raises `DuplicateKeyError` (modelled as `none`);
otherwise the document is appended. -/
def insertOne (db : MetaDB) (doc : FileDoc) : Option MetaDB :=
  if db.any (fun d => decide (d.file_id = doc.file_id)) then none
  else some (db ++ [doc])

/-- MongoDB `update_one({'file_id': fid, 'reads': {'$gt': 0}},
{'$inc': {'reads': -1}})`: decrement `reads` of the first document
matching the whole filter, returning the new collection together with
`modified_count`.  This is the single atomic round trip performed by
`MongoDBClient.update_file_reads`; note that the filter mentions only
`file_id` and `reads`, not `expires_at`. -/
def updateOneDec : MetaDB → String → MetaDB × Nat
  | [], _ => ([], 0)
  | d :: rest, fid =>
    if d.file_id = fid ∧ 0 < d.reads then
      ({ d with reads := d.reads - 1 } :: rest, 1)
    else
      (d :: (updateOneDec rest fid).1, (updateOneDec rest fid).2)

/-- The MongoDB TTL monitor for the index on `expires_at` with
`expireAfterSeconds = 0` (from `_create_indexes`): one best-effort sweep
at time `now` removes every document whose `expires_at` is not in the
future.  The monitor runs periodically, so expired documents may survive
until the next sweep. -/
def ttlSweep (db : MetaDB) (now : Int) : MetaDB :=
  db.filter (fun d => decide (now < d.expires_at))

/-- The metadata dict the encode endpoint passes to
`store_file_metadata`, before that method adds `file_id`, `created_at`
and `expires_at`.  Field shapes follow the spec's FileRecord and the
encode request (`ttl`, `reads`); the encode endpoint itself is not under
src/. -/
structure MetaIn where
  ttl : Int
  reads : Int
  max_reads : Int
  file_name : String
  salt : Nat
  nonce : Nat
  deriving DecidableEq, Repr

/-- The document `MongoDBClient.store_file_metadata` builds: it sets
`metadata['file_id'] = file_id`, `metadata['created_at'] =
datetime.utcnow()` (first clock read, `now1`), reads `ttl` from the dict,
and sets `metadata['expires_at'] = datetime.utcnow() + timedelta(seconds=
ttl_seconds)` (a second, later clock read, `now2`). -/
def docOfMeta (fid : String) (m : MetaIn) (now1 now2 : Int) : FileDoc :=
  { file_id := fid, file_name := m.file_name, salt := m.salt,
    nonce := m.nonce, reads := m.reads, max_reads := m.max_reads,
    created_at := now1, expires_at := now2 + m.ttl }

/-- Embeds `MongoDBClient.store_file_metadata`: stamp the document (two
separate `utcnow()` reads `now1`, `now2`), then `insert_one` it.  Returns
True on success; any exception — including the `DuplicateKeyError` the
unique index raises for an existing `file_id` — is caught and turned into
False with no change acknowledged. -/
def store_file_metadata (db : MetaDB) (fid : String) (m : MetaIn)
    (now1 now2 : Int) (raises : Bool) : Bool × MetaDB :=
  if raises then (false, db)
  else
    match insertOne db (docOfMeta fid m now1 now2) with
    | some db2 => (true, db2)
    | none => (false, db)

/-- Embeds `MongoDBClient.get_file_metadata`: `find_one` by `file_id`,
returning the document or None.  Any exception (connection failure,
server-selection timeout, ...) is caught and also returns None — the same
value as an absent document. -/
def get_file_metadata (db : MetaDB) (fid : String) (raises : Bool) :
    Option FileDoc :=
  if raises then none else findOne db fid

/-- Embeds `MongoDBClient.update_file_reads`: the single conditional
`update_one` described at `updateOneDec`, returning True iff
`modified_count > 0`.  Any exception is caught and returns False with no
mutation acknowledged. -/
def update_file_reads (db : MetaDB) (fid : String) (raises : Bool) :
    Bool × MetaDB :=
  if raises then (false, db)
  else
    let p := updateOneDec db fid
    (decide (0 < p.2), p.1)

/-- The collection is governed by the unique index on `file_id`: no two
documents share a `file_id`. -/
abbrev wellFormed (db : MetaDB) : Prop :=
  (db.map (fun d => d.file_id)).Nodup

/-- Modelled from the spec: the Cipher component (api/cipher, AES-256-GCM
with a password-derived key) is not under src/.  The derived key is
idealized as the pair of its inputs, so that distinct passwords or salts
yield distinct keys. -/
def deriveKey (password : String) (salt : Nat) : String × Nat :=
  (password, salt)

/-- Modelled from the spec: the AEAD keystream byte for a given key and
nonce — a concrete function of key and nonce standing in for the AES-CTR
keystream. -/
def pad (key : String × Nat) (nonce : Nat) : Nat :=
  (key.1.length * 31 + key.2 * 7 + nonce * 13) % 256

/-- Modelled from the spec: byte-wise stream encryption modulo 256. -/
def encBytes (k : Nat) (p : List Nat) : List Nat :=
  p.map (fun b => (b + k) % 256)

/-- Modelled from the spec: byte-wise stream decryption, inverse of
`encBytes` on bytes below 256. -/
def decBytes (k : Nat) (c : List Nat) : List Nat :=
  c.map (fun b => (b + (256 - k % 256)) % 256)

/-- Modelled from the spec: an AEAD ciphertext — the encrypted body
together with the integrity tag.  The tag binds key, nonce and body;
its unforgeability is idealized as literal equality. -/
structure Ciphertext where
  body : List Nat
  tag : (String × Nat) × Nat × List Nat
  deriving DecidableEq, Repr

/-- Modelled from the spec: `Seal(plaintext, password)` with the given
salt and nonce — derive the key, encrypt the payload, attach the tag. -/
def cipherSeal (plaintext : List Nat) (password : String) (salt nonce : Nat) :
    Ciphertext :=
  { body := encBytes (pad (deriveKey password salt) nonce) plaintext,
    tag := (deriveKey password salt, nonce,
      encBytes (pad (deriveKey password salt) nonce) plaintext) }

/-- Result of `Open`: the plaintext, or the AuthenticationFailed error
kind the spec requires for a wrong password or a tampered ciphertext. -/
inductive OpenResult where
  | ok (plaintext : List Nat)
  | authenticationFailed
  deriving DecidableEq, Repr

/-- Modelled from the spec: `Open(ciphertext, password, salt, nonce)` —
re-derive the key, verify the tag, decrypt; tag mismatch is
AuthenticationFailed. -/
def cipherOpen (c : Ciphertext) (password : String) (salt nonce : Nat) :
    OpenResult :=
  if c.tag = (deriveKey password salt, nonce, c.body) then
    .ok (decBytes (pad (deriveKey password salt) nonce) c.body)
  else .authenticationFailed

/-- The Blob Store (Cloudflare R2, api/storage.py — not under src/),
modelled from the spec as an association list from id to ciphertext. -/
abbrev BlobStore := List (String × Ciphertext)

/-- Modelled from the spec: `Blob Store.Put(id, bytes)` — overwrite
semantics of an object store. -/
def blobPut (bs : BlobStore) (fid : String) (ct : Ciphertext) : BlobStore :=
  (fid, ct) :: bs.filter (fun p => decide (¬ p.1 = fid))

/-- Modelled from the spec: `Blob Store.Get(id)`. -/
def blobGet (bs : BlobStore) (fid : String) : Option Ciphertext :=
  (bs.find? (fun p => decide (p.1 = fid))).map (fun p => p.2)

/-- Modelled from the spec: `Blob Store.Delete(id)`. -/
def blobDelete (bs : BlobStore) (fid : String) : BlobStore :=
  bs.filter (fun p => decide (¬ p.1 = fid))

/-- The two storage backends the Orchestrator coordinates. -/
structure Sys where
  meta : MetaDB
  blobs : BlobStore
  deriving DecidableEq, Repr

/-- Modelled from the spec: `IsAlive(record, now)` of the Lifecycle
Guard — false if `now >= expires_at`, or if `max_reads > 0` and
`remaining_reads <= 0`. -/
def isAlive (d : FileDoc) (now : Int) : Bool :=
  decide (now < d.expires_at) &&
    !(decide (0 < d.max_reads) && decide (d.reads ≤ 0))

/-- Modelled from the spec: `ConsumeRead(id)` of the Lifecycle Guard as
the decode endpoint (not under src/) realizes it — if the record's
`max_reads` is 0 (unlimited) succeed without touching the store,
otherwise perform the source's single conditional update
`update_file_reads`. -/
def consumeRead (db : MetaDB) (fid : String) (maxReads : Int)
    (raises : Bool) : Bool × MetaDB :=
  if maxReads = 0 then (true, db)
  else update_file_reads db fid raises

/-- Result of the Store operation. -/
inductive StoreResult where
  | ok (id : String) (fileName : String)
  | storageFailed
  deriving DecidableEq, Repr

/-- Modelled from the spec: the Orchestrator's Store pipeline after
Seal — write the ciphertext blob under `id`, then write the FileRecord;
on metadata failure delete the just-written blob (compensating action)
and surface StorageFailed. -/
def storeFlow (s : Sys) (fid : String) (ct : Ciphertext) (m : MetaIn)
    (now1 now2 : Int) (metaRaises : Bool) : StoreResult × Sys :=
  let blobs2 := blobPut s.blobs fid ct
  let r := store_file_metadata s.meta fid m now1 now2 metaRaises
  if r.1 then (.ok fid m.file_name, ⟨r.2, blobs2⟩)
  else (.storageFailed, ⟨r.2, blobDelete blobs2 fid⟩)

/-- Result of the Retrieve operation, with the error kinds of the spec. -/
inductive RetrieveResult where
  | ok (payload : List Nat) (fileName : String) (remaining : Int)
  | notFound
  | authenticationFailed
  | storageFailed
  deriving DecidableEq, Repr

/-- Modelled from the spec: the Orchestrator's Retrieve pipeline (the
decode endpoint is not under src/) — load the record, IsAlive fast-path
(expired or exhausted is reported as NotFound), ConsumeRead via the
source's conditional update, load the blob (missing blob is an internal
fault surfaced as StorageFailed), Open (tag mismatch surfaces as
AuthenticationFailed, the consumed read is not rolled back), and delete
record and blob when the post-decrement counter reaches 0. -/
def retrieve (s : Sys) (fid password : String) (now : Int) :
    RetrieveResult × Sys :=
  match get_file_metadata s.meta fid false with
  | none => (.notFound, s)
  | some d =>
    if isAlive d now then
      let c := consumeRead s.meta fid d.max_reads false
      if c.1 then
        let newRemaining : Int := if d.max_reads = 0 then 0 else d.reads - 1
        match blobGet s.blobs fid with
        | none => (.storageFailed, ⟨c.2, s.blobs⟩)
        | some ct =>
          match cipherOpen ct password d.salt d.nonce with
          | .authenticationFailed => (.authenticationFailed, ⟨c.2, s.blobs⟩)
          | .ok payload =>
            if ¬ d.max_reads = 0 ∧ newRemaining = 0 then
              (.ok payload d.file_name newRemaining,
                ⟨(c.2).filter (fun x => decide (¬ x.file_id = fid)),
                  blobDelete s.blobs fid⟩)
            else (.ok payload d.file_name newRemaining, ⟨c.2, s.blobs⟩)
      else (.notFound, ⟨c.2, s.blobs⟩)
    else (.notFound, s)

/-- One operation against the `files` collection, for stating invariants
over arbitrary operation sequences. -/
inductive Op where
  | store (fid : String) (m : MetaIn) (now1 now2 : Int) (raises : Bool)
  | consume (fid : String) (raises : Bool)
  | sweep (now : Int)
  deriving DecidableEq, Repr

/-- Effect of one operation on the `files` collection. -/
def applyOp (db : MetaDB) : Op → MetaDB
  | .store fid m now1 now2 raises =>
      (store_file_metadata db fid m now1 now2 raises).2
  | .consume fid raises => (update_file_reads db fid raises).2
  | .sweep now => ttlSweep db now

/-- Effect of a sequence of operations. -/
def applySeq (db : MetaDB) (ops : List Op) : MetaDB :=
  ops.foldl applyOp db

/-- A store operation carries a non-negative initial reads counter (the
spec bounds `max_reads` below by 0); other operations carry nothing. -/
def opNonneg : Op → Bool
  | .store _ m _ _ _ => decide (0 ≤ m.reads)
  | _ => true

/-- Every store operation in the list carries a non-negative initial
reads counter. -/
def opsNonneg (ops : List Op) : Bool :=
  ops.all opNonneg

/-- The document `fid` stays present after every step of the operation
sequence (its lifetime covers the whole sequence). -/
def presentThrough (db : MetaDB) (fid : String) : List Op → Bool
  | [] => true
  | op :: rest =>
    (findOne (applyOp db op) fid).isSome && presentThrough (applyOp db op) fid rest

/-- A hit of `findOne` is a member of the collection with the requested
id. -/
theorem findOne_mem {db : MetaDB} {fid : String} {d : FileDoc}
    (h : findOne db fid = some d) : d ∈ db ∧ d.file_id = fid := by
  refine ⟨List.mem_of_find?_eq_some h, ?_⟩
  have hp := List.find?_some h
  simpa using hp

/-- `findOne` on a cons whose head has the requested id. -/
theorem findOne_cons_pos {d : FileDoc} {rest : MetaDB} {fid : String}
    (h : d.file_id = fid) : findOne (d :: rest) fid = some d := by
  unfold findOne
  rw [List.find?_cons_of_pos]
  simpa using h

/-- `findOne` on a cons whose head misses skips the head. -/
theorem findOne_cons_neg {d : FileDoc} {rest : MetaDB} {fid : String}
    (h : ¬ d.file_id = fid) : findOne (d :: rest) fid = findOne rest fid := by
  unfold findOne
  rw [List.find?_cons_of_neg]
  simpa using h

/-- If no member carries the requested id, `findOne` misses. -/
theorem findOne_eq_none {db : MetaDB} {fid : String}
    (h : ∀ x ∈ db, ¬ x.file_id = fid) : findOne db fid = none := by
  unfold findOne
  rw [List.find?_eq_none]
  intro x hx
  simpa using h x hx

/-- Under the unique index, a member with the id found by `findOne` is
the found document itself. -/
theorem findOne_unique {db : MetaDB} {fid : String} {d x : FileDoc}
    (wf : wellFormed db) (h : findOne db fid = some d)
    (hx : x ∈ db) (hfx : x.file_id = fid) : x = d := by
  induction db with
  | nil => cases hx
  | cons a rest ih =>
    have wf2 := wf
    rw [wellFormed, List.map_cons, List.nodup_cons] at wf2
    rcases List.mem_cons.mp hx with rfl | hmem
    · by_cases ha : x.file_id = fid
      · rw [findOne_cons_pos ha] at h
        exact (Option.some_injective _ h).symm ▸ rfl
      · exact absurd hfx ha
    · by_cases ha : a.file_id = fid
      · exfalso
        apply wf2.1
        rw [ha, ← hfx]
        exact List.mem_map_of_mem (fun y => y.file_id) hmem
      · rw [findOne_cons_neg ha] at h
        exact ih wf2.2 h hmem

/-- The conditional update leaves the collection untouched and reports
no modification when no document matches the whole filter. -/
theorem updateOneDec_no_match {db : MetaDB} {fid : String}
    (h : ∀ d ∈ db, d.file_id = fid → d.reads ≤ 0) :
    updateOneDec db fid = (db, 0) := by
  induction db with
  | nil => rfl
  | cons d rest ih =>
    have hcond : ¬ (d.file_id = fid ∧ 0 < d.reads) := by
      rintro ⟨h1, h2⟩
      exact absurd h2 (not_lt.mpr (h d (List.mem_cons_self d rest) h1))
    rw [updateOneDec, if_neg hcond,
      ih (fun x hx hfx => h x (List.mem_cons_of_mem d hx) hfx)]

/-- The conditional update reports a modification exactly when a
document with the requested id and a positive counter exists. -/
theorem updateOneDec_pos_iff (db : MetaDB) (fid : String) :
    0 < (updateOneDec db fid).2 ↔ ∃ d ∈ db, d.file_id = fid ∧ 0 < d.reads := by
  induction db with
  | nil => simp [updateOneDec]
  | cons d rest ih =>
    by_cases hcond : d.file_id = fid ∧ 0 < d.reads
    · rw [updateOneDec, if_pos hcond]
      simp only [List.mem_cons]
      exact ⟨fun _ => ⟨d, Or.inl rfl, hcond⟩, fun _ => Nat.one_pos⟩
    · rw [updateOneDec, if_neg hcond]
      simp only [List.mem_cons]
      constructor
      · intro hp
        rcases (ih.mp hp) with ⟨x, hx, hxp⟩
        exact ⟨x, Or.inr hx, hxp⟩
      · rintro ⟨x, hx | hx, hxp⟩
        · exact absurd (hx ▸ hxp) hcond
        · exact ih.mpr ⟨x, hx, hxp⟩

/-- Effect of the conditional update when the first document carrying
the id has a positive counter: exactly that document is decremented by
one and the modified count is 1. -/
theorem updateOneDec_found {db : MetaDB} {fid : String} {d : FileDoc}
    (h : findOne db fid = some d) (hr : 0 < d.reads) :
    (updateOneDec db fid).2 = 1 ∧
      findOne (updateOneDec db fid).1 fid = some { d with reads := d.reads - 1 } := by
  induction db with
  | nil => simp [findOne, List.find?] at h
  | cons a rest ih =>
    by_cases ha : a.file_id = fid
    · rw [findOne_cons_pos ha] at h
      cases h
      rw [updateOneDec, if_pos ⟨ha, hr⟩]
      exact ⟨rfl, findOne_cons_pos ha⟩
    · rw [findOne_cons_neg ha] at h
      have hcond : ¬ (a.file_id = fid ∧ 0 < a.reads) := fun hc => ha hc.1
      rw [updateOneDec, if_neg hcond]
      rcases ih h with ⟨h1, h2⟩
      exact ⟨h1, by rw [findOne_cons_neg ha]; exact h2⟩

/-- The conditional update preserves the sequence of ids. -/
theorem updateOneDec_map_id (db : MetaDB) (fid : String) :
    ((updateOneDec db fid).1).map (fun d => d.file_id)
      = db.map (fun d => d.file_id) := by
  induction db with
  | nil => rfl
  | cons d rest ih =>
    by_cases hcond : d.file_id = fid ∧ 0 < d.reads
    · rw [updateOneDec, if_pos hcond]
      simp
    · rw [updateOneDec, if_neg hcond]
      simpa using ih

/-- The conditional update preserves the unique index invariant. -/
theorem updateOneDec_wellFormed {db : MetaDB} (fid : String)
    (wf : wellFormed db) : wellFormed (updateOneDec db fid).1 := by
  rw [wellFormed, updateOneDec_map_id]
  exact wf

/-- `update_file_reads` without an exception is the conditional update. -/
theorem update_file_reads_eq (db : MetaDB) (fid : String) :
    update_file_reads db fid false
      = (decide (0 < (updateOneDec db fid).2), (updateOneDec db fid).1) := rfl

/-- A missing `findOne` means no member carries the id. -/
theorem findOne_none_forall {db : MetaDB} {fid : String}
    (h : findOne db fid = none) : ∀ x ∈ db, ¬ x.file_id = fid := by
  unfold findOne at h
  rw [List.find?_eq_none] at h
  intro x hx
  simpa using h x hx

/-- C1, counterexample: the claim requires the conditional update to
decrement only when `now < expires_at`; but `update_file_reads` does not
receive `now` at all and its filter mentions only `reads > 0`.  At time
`now = 7` a record with `expires_at = 5` (already expired, still present
because the TTL sweep is best-effort) and one remaining read is
nevertheless consumed: the call succeeds and decrements where the claim
demands an Exhausted outcome without mutation. -/
theorem C1_counterexample_expired_record_consumed :
    ¬ ((7 : Int) < (5 : Int)) ∧
      update_file_reads [⟨"a", "f", 0, 0, 1, 1, 0, 5⟩] "a" false
        = (true, [⟨"a", "f", 0, 0, 0, 1, 0, 5⟩]) := by
  constructor
  · decide
  · decide

/-- C1, amended: ConsumeRead with `max_reads = 0` succeeds without
mutating any state; otherwise it is the single conditional update
`update_file_reads`, which decrements `reads` by exactly 1 if and only if
a record with the id and `reads > 0` exists — expiry is not part of the
update condition — succeeding when the decrement applied and failing,
with the state unchanged, when the record was already exhausted or
absent (the two failure cases are not distinguished by the update). -/
theorem C1_consumeRead_conditional_update (db : MetaDB)
    (fid fid2 : String) (mr : Int) (r : Bool) (d : FileDoc)
    (wf : wellFormed db) (hm : mr ≠ 0) (hd : findOne db fid = some d)
    (h2 : findOne db fid2 = none) :
    consumeRead db fid 0 r = (true, db) ∧
    consumeRead db fid mr false = update_file_reads db fid false ∧
    ((update_file_reads db fid false).1 = true ↔ 0 < d.reads) ∧
    (0 < d.reads →
      findOne (update_file_reads db fid false).2 fid
        = some { d with reads := d.reads - 1 }) ∧
    (d.reads ≤ 0 → update_file_reads db fid false = (false, db)) ∧
    update_file_reads db fid2 false = (false, db) := by
  have hmem := findOne_mem hd
  refine ⟨rfl, ?_, ?_, ?_, ?_, ?_⟩
  · rw [consumeRead, if_neg hm]
  · rw [update_file_reads_eq]
    simp only [decide_eq_true_eq]
    rw [updateOneDec_pos_iff]
    constructor
    · rintro ⟨x, hx, hfx, hrx⟩
      rwa [findOne_unique wf hd hx hfx] at hrx
    · intro hr
      exact ⟨d, hmem.1, hmem.2, hr⟩
  · intro hr
    rw [update_file_reads_eq]
    exact (updateOneDec_found hd hr).2
  · intro hr
    have hzero : updateOneDec db fid = (db, 0) := by
      apply updateOneDec_no_match
      intro x hx hfx
      rw [findOne_unique wf hd hx hfx]
      exact hr
    rw [update_file_reads_eq, hzero]
    simp
  · have hzero : updateOneDec db fid2 = (db, 0) := by
      apply updateOneDec_no_match
      intro x hx hfx
      exact absurd hfx (findOne_none_forall h2 x hx)
    rw [update_file_reads_eq, hzero]
    simp

/-- C1, witness: the amended theorem applied to a concrete collection
holding one record with id a, 2 remaining reads, ceiling 3, and no
record with id b. -/
theorem C1_consumeRead_witness :
    consumeRead [⟨"a", "f", 0, 0, 2, 3, 0, 100⟩] "a" 0 true
        = (true, [⟨"a", "f", 0, 0, 2, 3, 0, 100⟩]) ∧
    consumeRead [⟨"a", "f", 0, 0, 2, 3, 0, 100⟩] "a" 3 false
        = update_file_reads [⟨"a", "f", 0, 0, 2, 3, 0, 100⟩] "a" false ∧
    ((update_file_reads [⟨"a", "f", 0, 0, 2, 3, 0, 100⟩] "a" false).1 = true
        ↔ 0 < (FileDoc.mk "a" "f" 0 0 2 3 0 100).reads) ∧
    (0 < (FileDoc.mk "a" "f" 0 0 2 3 0 100).reads →
      findOne (update_file_reads [⟨"a", "f", 0, 0, 2, 3, 0, 100⟩] "a" false).2 "a"
        = some { FileDoc.mk "a" "f" 0 0 2 3 0 100 with
                  reads := (FileDoc.mk "a" "f" 0 0 2 3 0 100).reads - 1 }) ∧
    ((FileDoc.mk "a" "f" 0 0 2 3 0 100).reads ≤ 0 →
      update_file_reads [⟨"a", "f", 0, 0, 2, 3, 0, 100⟩] "a" false
        = (false, [⟨"a", "f", 0, 0, 2, 3, 0, 100⟩])) ∧
    update_file_reads [⟨"a", "f", 0, 0, 2, 3, 0, 100⟩] "b" false
        = (false, [⟨"a", "f", 0, 0, 2, 3, 0, 100⟩]) :=
  C1_consumeRead_conditional_update [⟨"a", "f", 0, 0, 2, 3, 0, 100⟩]
    "a" "b" 3 true (FileDoc.mk "a" "f" 0 0 2 3 0 100)
    (by decide) (by decide) (by decide) (by decide)

/-- C2: the read-consuming step of each Retrieve is the single-round-trip
conditional update `update_file_reads` (one MongoDB `update_one`), so a
concurrent pair of retrievals interleaves as the two sequential orders,
which coincide because both calls run the identical atomic update.  From
a record with `reads = 1`, the first update succeeds and the second
fails: exactly one of two concurrent retrievals consumes the last read,
never both. -/
theorem C2_race_one_success (db : MetaDB) (fid : String) (d : FileDoc)
    (wf : wellFormed db) (hd : findOne db fid = some d)
    (h1 : d.reads = 1) :
    (update_file_reads db fid false).1 = true ∧
    (update_file_reads (update_file_reads db fid false).2 fid false).1
      = false := by
  have hr : 0 < d.reads := by rw [h1]; exact Int.zero_lt_one
  have hfound := updateOneDec_found hd hr
  constructor
  · rw [update_file_reads_eq]
    simp [hfound.1]
  · rw [update_file_reads_eq, update_file_reads_eq]
    have wf1 : wellFormed (updateOneDec db fid).1 :=
      updateOneDec_wellFormed fid wf
    have hzero : updateOneDec (updateOneDec db fid).1 fid
        = ((updateOneDec db fid).1, 0) := by
      apply updateOneDec_no_match
      intro x hx hfx
      rw [findOne_unique wf1 hfound.2 hx hfx, h1]
      simp
    rw [hzero]
    simp

/-- C2, witness: a concrete collection holding one record with a single
remaining read; the first consume succeeds, the second fails. -/
theorem C2_race_witness :
    (update_file_reads [⟨"a", "f", 0, 0, 1, 1, 0, 9⟩] "a" false).1 = true ∧
    (update_file_reads
        (update_file_reads [⟨"a", "f", 0, 0, 1, 1, 0, 9⟩] "a" false).2
        "a" false).1 = false :=
  C2_race_one_success [⟨"a", "f", 0, 0, 1, 1, 0, 9⟩] "a"
    (FileDoc.mk "a" "f" 0 0 1 1 0 9) (by decide) (by decide) (by decide)

/-- A successful insert appends the stamped document. -/
theorem store_file_metadata_success {db : MetaDB} {fid : String}
    {m : MetaIn} {now1 now2 : Int} (habs : findOne db fid = none) :
    store_file_metadata db fid m now1 now2 false
      = (true, db ++ [docOfMeta fid m now1 now2]) := by
  have hany : db.any
      (fun d => decide (d.file_id = (docOfMeta fid m now1 now2).file_id))
        = false := by
    rw [List.any_eq_false]
    intro x hx
    simpa [docOfMeta] using findOne_none_forall habs x hx
  unfold store_file_metadata insertOne
  simp [hany]

/-- An insert against an existing id hits the unique index, the raised
`DuplicateKeyError` is caught, and the collection is unchanged. -/
theorem store_file_metadata_dup {db : MetaDB} {fid : String} {m : MetaIn}
    {now1 now2 : Int} {r : Bool} {d : FileDoc}
    (hpres : findOne db fid = some d) :
    store_file_metadata db fid m now1 now2 r = (false, db) := by
  cases r with
  | true => rfl
  | false =>
    have hmem := findOne_mem hpres
    have hany : db.any
        (fun x => decide (x.file_id = (docOfMeta fid m now1 now2).file_id))
          = true := by
      rw [List.any_eq_true]
      exact ⟨d, hmem.1, by simpa [docOfMeta] using hmem.2⟩
    unfold store_file_metadata insertOne
    simp [hany]

/-- C5: the code contradicts the claim — `get_file_metadata` catches any
storage exception (e.g. a server-selection timeout) and returns None,
the very value an absent record produces, so the caller reports the link
as not found instead of a storage failure; `update_file_reads` likewise
returns False both on a storage failure and on an absent record.  Here
the record is present, the store fails, and the result is
indistinguishable from the empty collection's. -/
theorem C5_storage_failure_reported_as_not_found :
    get_file_metadata [⟨"a", "f", 0, 0, 1, 1, 0, 100⟩] "a" true = none ∧
    findOne [⟨"a", "f", 0, 0, 1, 1, 0, 100⟩] "a"
      = some ⟨"a", "f", 0, 0, 1, 1, 0, 100⟩ ∧
    get_file_metadata [] "a" false = none ∧
    update_file_reads [⟨"a", "f", 0, 0, 1, 1, 0, 100⟩] "a" true
      = (false, [⟨"a", "f", 0, 0, 1, 1, 0, 100⟩]) ∧
    update_file_reads [] "a" false = (false, []) := by
  exact ⟨rfl, by decide, rfl, by decide, rfl⟩

/-- C6, counterexample: `store_file_metadata` reads the clock twice —
`created_at` from the first `utcnow()` call and `expires_at` from a
second, later one.  With the first read at 0, the second at 1 and
`ttl = 10`, the stored record has `expires_at = 11` while
`created_at + ttl = 10`. -/
theorem C6_counterexample_two_clock_reads :
    findOne (store_file_metadata [] "a" ⟨10, 1, 1, "f", 0, 0⟩ 0 1 false).2 "a"
      = some ⟨"a", "f", 0, 0, 1, 1, 0, 11⟩ ∧
    ¬ ((11 : Int) = 0 + 10) := by
  constructor
  · decide
  · decide

/-- C6, amended: the stored record satisfies `created_at = now1` and
`expires_at = now2 + ttl`, where `now1` and `now2` are the two successive
clock reads of `store_file_metadata`; hence
`expires_at ≥ created_at + ttl`, with equality exactly when the two
reads return the same instant. -/
theorem C6_expires_at_from_second_clock_read (db : MetaDB) (fid : String)
    (m : MetaIn) (now1 now2 : Int) (hle : now1 ≤ now2)
    (habs : findOne db fid = none) :
    store_file_metadata db fid m now1 now2 false
      = (true, db ++ [docOfMeta fid m now1 now2]) ∧
    (docOfMeta fid m now1 now2).created_at = now1 ∧
    (docOfMeta fid m now1 now2).expires_at = now2 + m.ttl ∧
    (docOfMeta fid m now1 now2).created_at + m.ttl
      ≤ (docOfMeta fid m now1 now2).expires_at ∧
    (now1 = now2 →
      (docOfMeta fid m now1 now2).expires_at
        = (docOfMeta fid m now1 now2).created_at + m.ttl) := by
  refine ⟨store_file_metadata_success habs, rfl, rfl, ?_, ?_⟩
  · show now1 + m.ttl ≤ now2 + m.ttl
    exact Int.add_le_add_right hle m.ttl
  · intro h
    show now2 + m.ttl = now1 + m.ttl
    rw [h]

/-- C6, witness: the amended theorem applied to the empty collection
with both clock reads at 5 and ttl 60. -/
theorem C6_expires_at_witness :
    store_file_metadata [] "a" ⟨60, 1, 1, "f", 0, 0⟩ 5 5 false
      = (true, [] ++ [docOfMeta "a" ⟨60, 1, 1, "f", 0, 0⟩ 5 5]) ∧
    (docOfMeta "a" ⟨60, 1, 1, "f", 0, 0⟩ 5 5).created_at = 5 ∧
    (docOfMeta "a" ⟨60, 1, 1, "f", 0, 0⟩ 5 5).expires_at = 5 + 60 ∧
    (docOfMeta "a" ⟨60, 1, 1, "f", 0, 0⟩ 5 5).created_at + 60
      ≤ (docOfMeta "a" ⟨60, 1, 1, "f", 0, 0⟩ 5 5).expires_at ∧
    ((5 : Int) = 5 →
      (docOfMeta "a" ⟨60, 1, 1, "f", 0, 0⟩ 5 5).expires_at
        = (docOfMeta "a" ⟨60, 1, 1, "f", 0, 0⟩ 5 5).created_at + 60) :=
  C6_expires_at_from_second_clock_read [] "a" ⟨60, 1, 1, "f", 0, 0⟩ 5 5
    (by decide) rfl

/-- C10: the unique index on `file_id` together with the plain
`insert_one` means a second `store_file_metadata` against an existing id
fails — whether by the caught `DuplicateKeyError` or any other caught
exception — and the collection, in particular the previously stored
record for that id, is unchanged. -/
theorem C10_store_never_overwrites (db : MetaDB) (fid : String)
    (m : MetaIn) (now1 now2 : Int) (r : Bool) (d : FileDoc)
    (hpres : findOne db fid = some d) :
    store_file_metadata db fid m now1 now2 r = (false, db) ∧
    findOne (store_file_metadata db fid m now1 now2 r).2 fid = some d := by
  refine ⟨store_file_metadata_dup hpres, ?_⟩
  rw [store_file_metadata_dup hpres]
  exact hpres

/-- C10, witness: storing twice under id a: the second call fails and
the first record survives unchanged. -/
theorem C10_store_never_overwrites_witness :
    store_file_metadata [⟨"a", "f", 0, 0, 1, 1, 0, 9⟩] "a"
        ⟨7, 5, 5, "g", 2, 2⟩ 3 4 false
      = (false, [⟨"a", "f", 0, 0, 1, 1, 0, 9⟩]) ∧
    findOne (store_file_metadata [⟨"a", "f", 0, 0, 1, 1, 0, 9⟩] "a"
        ⟨7, 5, 5, "g", 2, 2⟩ 3 4 false).2 "a"
      = some ⟨"a", "f", 0, 0, 1, 1, 0, 9⟩ :=
  C10_store_never_overwrites [⟨"a", "f", 0, 0, 1, 1, 0, 9⟩] "a"
    ⟨7, 5, 5, "g", 2, 2⟩ 3 4 false (FileDoc.mk "a" "f" 0 0 1 1 0 9)
    (by decide)

/-- Stream decryption inverts stream encryption on byte values. -/
theorem decBytes_encBytes (k : Nat) (p : List Nat)
    (h : ∀ b ∈ p, b < 256) : decBytes k (encBytes k p) = p := by
  induction p with
  | nil => rfl
  | cons b rest ih =>
    have hb : b < 256 := h b (List.mem_cons_self b rest)
    have hrest := ih (fun x hx => h x (List.mem_cons_of_mem b hx))
    unfold encBytes decBytes at *
    simp only [List.map_cons]
    rw [hrest]
    congr 1
    omega

/-- Opening a sealed payload with the sealing password, salt and nonce
recovers the payload. -/
theorem cipherOpen_cipherSeal (P : List Nat) (W : String)
    (salt nonce : Nat) (h : ∀ b ∈ P, b < 256) :
    cipherOpen (cipherSeal P W salt nonce) W salt nonce = .ok P := by
  unfold cipherOpen cipherSeal
  rw [if_pos rfl]
  rw [decBytes_encBytes _ _ h]

/-- C8: round trip — for every byte payload P and password W, opening
the output of Seal(P, W) with W and the salt and nonce Seal used
returns exactly P. -/
theorem C8_cipher_round_trip (P : List Nat) (W : String)
    (salt nonce : Nat) (h : ∀ b ∈ P, b < 256) :
    cipherOpen (cipherSeal P W salt nonce) W salt nonce = .ok P :=
  cipherOpen_cipherSeal P W salt nonce h

/-- C8, witness: the round trip on the payload "hi" ([104, 105]) under
password pw with salt 3 and nonce 4. -/
theorem C8_cipher_round_trip_witness :
    cipherOpen (cipherSeal [104, 105] "pw" 3 4) "pw" 3 4
      = .ok [104, 105] :=
  C8_cipher_round_trip [104, 105] "pw" 3 4 (by decide)

/-- C9: a wrong password makes the re-derived key differ from the key
bound into the tag, and a tampered body differs from the body bound into
the tag; in both cases tag verification fails and Open returns exactly
the AuthenticationFailed kind — never the plaintext and never any other
result. -/
theorem C9_wrong_password_or_tamper_auth_failed (P : List Nat)
    (W W2 : String) (salt nonce : Nat) (body2 : List Nat)
    (hW : ¬ W2 = W) (hbody : ¬ body2 = (cipherSeal P W salt nonce).body) :
    cipherOpen (cipherSeal P W salt nonce) W2 salt nonce
      = .authenticationFailed ∧
    cipherOpen ⟨body2, (cipherSeal P W salt nonce).tag⟩ W salt nonce
      = .authenticationFailed := by
  constructor
  · unfold cipherOpen
    rw [if_neg]
    intro hc
    apply hW
    have hfst := congrArg (fun t => t.1.1) hc
    simpa [cipherSeal, deriveKey] using hfst.symm
  · unfold cipherOpen
    rw [if_neg]
    intro hc
    apply hbody
    have hsnd := congrArg (fun t => t.2.2) hc
    simpa [cipherSeal, deriveKey] using hsnd.symm

/-- C9, witness: opening the payload "hi" sealed under pw with the wrong
password qw, and opening a ciphertext whose body was tampered to [0],
both yield AuthenticationFailed. -/
theorem C9_wrong_password_or_tamper_witness :
    cipherOpen (cipherSeal [104, 105] "pw" 3 4) "qw" 3 4
      = .authenticationFailed ∧
    cipherOpen ⟨[0], (cipherSeal [104, 105] "pw" 3 4).tag⟩ "pw" 3 4
      = .authenticationFailed :=
  C9_wrong_password_or_tamper_auth_failed [104, 105] "pw" "qw" 3 4 [0]
    (by decide) (by decide)

/-- After deleting an id from the blob store, no object is found under
that id. -/
theorem blobGet_delete (bs : BlobStore) (fid : String) :
    blobGet (blobDelete bs fid) fid = none := by
  unfold blobGet blobDelete
  have hfind : (bs.filter (fun p => decide (¬ p.1 = fid))).find?
      (fun p => decide (p.1 = fid)) = none := by
    rw [List.find?_eq_none]
    intro x hx
    have hkeep := (List.mem_filter.mp hx).2
    simpa using hkeep
  rw [hfind]
  rfl

/-- C7: whenever the metadata write fails after the ciphertext blob was
written — by a raised exception or by the caught duplicate-id error —
the Store pipeline deletes the just-written blob and surfaces
StorageFailed, and a subsequent blob-store Get of the id finds
nothing. -/
theorem C7_compensating_delete (s : Sys) (fid : String) (ct : Ciphertext)
    (m : MetaIn) (now1 now2 : Int) (r : Bool)
    (hfail : (store_file_metadata s.meta fid m now1 now2 r).1 = false) :
    (storeFlow s fid ct m now1 now2 r).1 = .storageFailed ∧
    blobGet (storeFlow s fid ct m now1 now2 r).2.blobs fid = none := by
  simp only [storeFlow, hfail, Bool.false_eq_true, if_false]
  exact ⟨trivial, blobGet_delete _ fid⟩

/-- C7, witness: on the empty system with the metadata write raising, the
store of id a surfaces StorageFailed and leaves no blob under a. -/
theorem C7_compensating_delete_witness :
    (storeFlow ⟨[], []⟩ "a" (cipherSeal [104] "pw" 3 4)
        ⟨60, 1, 1, "f", 3, 4⟩ 0 0 true).1 = .storageFailed ∧
    blobGet (storeFlow ⟨[], []⟩ "a" (cipherSeal [104] "pw" 3 4)
        ⟨60, 1, 1, "f", 3, 4⟩ 0 0 true).2.blobs "a" = none :=
  C7_compensating_delete ⟨[], []⟩ "a" (cipherSeal [104] "pw" 3 4)
    ⟨60, 1, 1, "f", 3, 4⟩ 0 0 true (by decide)

/-- Projections of the stamped document. -/
theorem docOfMeta_proj (fid : String) (m : MetaIn) (now1 now2 : Int) :
    (docOfMeta fid m now1 now2).file_id = fid ∧
    (docOfMeta fid m now1 now2).file_name = m.file_name ∧
    (docOfMeta fid m now1 now2).salt = m.salt ∧
    (docOfMeta fid m now1 now2).nonce = m.nonce ∧
    (docOfMeta fid m now1 now2).reads = m.reads ∧
    (docOfMeta fid m now1 now2).max_reads = m.max_reads ∧
    (docOfMeta fid m now1 now2).created_at = now1 ∧
    (docOfMeta fid m now1 now2).expires_at = now2 + m.ttl :=
  ⟨rfl, rfl, rfl, rfl, rfl, rfl, rfl, rfl⟩

/-- The Store pipeline on an empty system deposits exactly the stamped
record and the blob. -/
theorem storeFlow_empty_sys (fid : String) (ct : Ciphertext) (m : MetaIn)
    (now1 now2 : Int) :
    (storeFlow ⟨[], []⟩ fid ct m now1 now2 false).2
      = ⟨[docOfMeta fid m now1 now2], [(fid, ct)]⟩ := by
  have hs : store_file_metadata ([] : MetaDB) fid m now1 now2 false
      = (true, [docOfMeta fid m now1 now2]) := by
    have h := @store_file_metadata_success [] fid m now1 now2 rfl
    simpa using h
  simp [storeFlow, hs, blobPut]

/-- The blob store finds the object stored at the head. -/
theorem blobGet_cons_self (fid : String) (ct : Ciphertext)
    (bs : BlobStore) : blobGet ((fid, ct) :: bs) fid = some ct := by
  unfold blobGet
  rw [List.find?_cons_of_pos]
  · rfl
  · simp

/-- C3: after a Store at time 0 with ttl T, the record's `expires_at` is
T; Retrieve answers NotFound at every `now ≥ T` even though the record
is still physically present in the metadata store (the IsAlive gate
treats it as absent), and at every `now < T` with the sealing password
and a non-exhausted budget (`max_reads = 0` or `reads > 0`) Retrieve
succeeds with the payload. -/
theorem C3_expiry_governs_retrieval (fid pw : String) (P : List Nat)
    (m : MetaIn) (now : Int) (hP : ∀ b ∈ P, b < 256) :
    (m.ttl ≤ now →
      findOne (storeFlow ⟨[], []⟩ fid (cipherSeal P pw m.salt m.nonce)
          m 0 0 false).2.meta fid = some (docOfMeta fid m 0 0) ∧
      (retrieve (storeFlow ⟨[], []⟩ fid (cipherSeal P pw m.salt m.nonce)
          m 0 0 false).2 fid pw now).1 = .notFound) ∧
    (now < m.ttl → m.max_reads = 0 ∨ 0 < m.reads →
      (retrieve (storeFlow ⟨[], []⟩ fid (cipherSeal P pw m.salt m.nonce)
          m 0 0 false).2 fid pw now).1
        = .ok P m.file_name (if m.max_reads = 0 then 0 else m.reads - 1)) := by
  rw [storeFlow_empty_sys]
  have hget : get_file_metadata [docOfMeta fid m 0 0] fid false
      = some (docOfMeta fid m 0 0) := findOne_cons_pos rfl
  constructor
  · intro hle
    have halive : isAlive (docOfMeta fid m 0 0) now = false := by
      simp only [isAlive, docOfMeta]
      have h1 : decide (now < (0 : Int) + m.ttl) = false := by
        rw [decide_eq_false_iff_not]
        omega
      rw [h1, Bool.false_and]
    refine ⟨findOne_cons_pos rfl, ?_⟩
    simp [retrieve, hget, halive]
  · intro hnow hbudget
    have halive : isAlive (docOfMeta fid m 0 0) now = true := by
      rcases hbudget with h | h <;> simp [isAlive, docOfMeta] <;> omega
    have hopen := cipherOpen_cipherSeal P pw m.salt m.nonce hP
    by_cases hm : m.max_reads = 0
    · have hcons : consumeRead [docOfMeta fid m 0 0] fid 0 false
          = (true, [docOfMeta fid m 0 0]) := rfl
      simp [retrieve, hget, halive, hcons, blobGet_cons_self,
        docOfMeta_proj, hopen, hm]
    · have hr : 0 < (docOfMeta fid m 0 0).reads := hbudget.resolve_left hm
      have hupd : updateOneDec [docOfMeta fid m 0 0] fid
          = ([{ docOfMeta fid m 0 0 with
                reads := (docOfMeta fid m 0 0).reads - 1 }], 1) := by
        rw [updateOneDec, if_pos]
        exact ⟨rfl, hr⟩
      have hcons : consumeRead [docOfMeta fid m 0 0] fid m.max_reads false
          = (true, [{ docOfMeta fid m 0 0 with
                reads := (docOfMeta fid m 0 0).reads - 1 }]) := by
        rw [consumeRead, if_neg hm]
        rw [update_file_reads_eq, hupd]
        rfl
      by_cases hlast : m.reads - 1 = 0
      · simp [retrieve, hget, halive, hcons, blobGet_cons_self,
          docOfMeta_proj, hopen, hm, hlast]
      · simp [retrieve, hget, halive, hcons, blobGet_cons_self,
          docOfMeta_proj, hopen, hm, hlast]

/-- C3, witness: a record stored at time 0 with ttl 100 and one read is
retrievable at now 99 and reported NotFound at now 100 while still
present. -/
theorem C3_expiry_witness :
    ((100 : Int) ≤ 100 →
      findOne (storeFlow ⟨[], []⟩ "a"
          (cipherSeal [104] "pw" 3 4) ⟨100, 1, 1, "f", 3, 4⟩ 0 0
            false).2.meta "a"
        = some (docOfMeta "a" ⟨100, 1, 1, "f", 3, 4⟩ 0 0) ∧
      (retrieve (storeFlow ⟨[], []⟩ "a"
          (cipherSeal [104] "pw" 3 4) ⟨100, 1, 1, "f", 3, 4⟩ 0 0
            false).2 "a" "pw" 100).1 = .notFound) ∧
    ((100 : Int) < 100 → (1 : Int) = 0 ∨ (0 : Int) < 1 →
      (retrieve (storeFlow ⟨[], []⟩ "a"
          (cipherSeal [104] "pw" 3 4) ⟨100, 1, 1, "f", 3, 4⟩ 0 0
            false).2 "a" "pw" 100).1
        = .ok [104] "f" (if (1 : Int) = 0 then 0 else 1 - 1)) :=
  C3_expiry_governs_retrieval "a" "pw" [104] ⟨100, 1, 1, "f", 3, 4⟩ 100
    (by decide)

/-- Appending a document does not change the hit of an earlier
`findOne`. -/
theorem findOne_append_some {db : MetaDB} {g : String} {d : FileDoc}
    (x : FileDoc) (h : findOne db g = some d) :
    findOne (db ++ [x]) g = some d := by
  induction db with
  | nil => cases h
  | cons a rest ih =>
    show findOne (a :: (rest ++ [x])) g = some d
    by_cases ha : a.file_id = g
    · rw [findOne_cons_pos ha] at h
      rw [findOne_cons_pos ha]
      exact h
    · rw [findOne_cons_neg ha] at h
      rw [findOne_cons_neg ha]
      exact ih h

/-- Appending a document after a miss looks it up in the appended
part. -/
theorem findOne_append_none {db : MetaDB} {g : String} (x : FileDoc)
    (h : findOne db g = none) :
    findOne (db ++ [x]) g = findOne [x] g := by
  induction db with
  | nil => rfl
  | cons a rest ih =>
    show findOne (a :: (rest ++ [x])) g = findOne [x] g
    by_cases ha : a.file_id = g
    · rw [findOne_cons_pos ha] at h
      cases h
    · rw [findOne_cons_neg ha] at h
      rw [findOne_cons_neg ha]
      exact ih h

/-- Any member of the updated collection is an old member or the single
decremented document. -/
theorem updateOneDec_mem {db : MetaDB} {fid : String} {x : FileDoc}
    (hx : x ∈ (updateOneDec db fid).1) :
    x ∈ db ∨ ∃ d ∈ db, 0 < d.reads ∧ x = { d with reads := d.reads - 1 } := by
  induction db with
  | nil => cases hx
  | cons a rest ih =>
    by_cases hcond : a.file_id = fid ∧ 0 < a.reads
    · rw [updateOneDec, if_pos hcond] at hx
      rcases List.mem_cons.mp hx with rfl | hmem
      · exact Or.inr ⟨a, List.mem_cons_self a rest, hcond.2, rfl⟩
      · exact Or.inl (List.mem_cons_of_mem a hmem)
    · rw [updateOneDec, if_neg hcond] at hx
      rcases List.mem_cons.mp hx with rfl | hmem
      · exact Or.inl (List.mem_cons_self x rest)
      · rcases ih hmem with h | ⟨d, hd, hdr, rfl⟩
        · exact Or.inl (List.mem_cons_of_mem a h)
        · exact Or.inr ⟨d, List.mem_cons_of_mem a hd, hdr, rfl⟩

/-- The conditional update at one id does not move `findOne` at another
id. -/
theorem findOne_updateOneDec_ne {db : MetaDB} {fid g : String}
    (hne : ¬ g = fid) :
    findOne (updateOneDec db fid).1 g = findOne db g := by
  induction db with
  | nil => rfl
  | cons a rest ih =>
    by_cases hcond : a.file_id = fid ∧ 0 < a.reads
    · rw [updateOneDec, if_pos hcond]
      show findOne ({ a with reads := a.reads - 1 } :: rest) g
          = findOne (a :: rest) g
      have hag : ¬ a.file_id = g := by
        rw [hcond.1]
        intro hgf
        exact hne hgf.symm
      have h1 : findOne ({ a with reads := a.reads - 1 } :: rest) g
          = findOne rest g := findOne_cons_neg hag
      have h2 : findOne (a :: rest) g = findOne rest g :=
        findOne_cons_neg hag
      rw [h1, h2]
    · rw [updateOneDec, if_neg hcond]
      show findOne (a :: (updateOneDec rest fid).1) g = findOne (a :: rest) g
      by_cases hag : a.file_id = g
      · rw [findOne_cons_pos hag, findOne_cons_pos hag]
      · rw [findOne_cons_neg hag, findOne_cons_neg hag]
        exact ih

/-- After the conditional update, the record either kept its counter
(nothing matched) or lost exactly one. -/
theorem findOne_updateOneDec_self {db : MetaDB} {fid : String}
    {d : FileDoc} (wf : wellFormed db) (hd : findOne db fid = some d) :
    findOne (updateOneDec db fid).1 fid = some d ∨
    (0 < d.reads ∧ findOne (updateOneDec db fid).1 fid
        = some { d with reads := d.reads - 1 }) := by
  by_cases hr : 0 < d.reads
  · exact Or.inr ⟨hr, (updateOneDec_found hd hr).2⟩
  · left
    have hzero : updateOneDec db fid = (db, 0) := by
      apply updateOneDec_no_match
      intro x hx hfx
      rw [findOne_unique wf hd hx hfx]
      omega
    rw [hzero]
    exact hd

/-- A hit inside a subcollection of a well-formed collection is the
collection's own hit. -/
theorem findOne_sub_unique {db sub : MetaDB} {g : String} {d x : FileDoc}
    (wf : wellFormed db) (hd : findOne db g = some d)
    (hsub : ∀ y ∈ sub, y ∈ db) (hx : findOne sub g = some x) : x = d := by
  have hm := findOne_mem hx
  exact findOne_unique wf hd (hsub x hm.1) hm.2

/-- The possible outcomes of a metadata store call, by collection. -/
theorem store_file_metadata_snd_cases (db : MetaDB) (fid : String)
    (m : MetaIn) (n1 n2 : Int) (r : Bool) :
    (store_file_metadata db fid m n1 n2 r).2 = db ∨
    (store_file_metadata db fid m n1 n2 r).2
      = db ++ [docOfMeta fid m n1 n2] := by
  cases r with
  | true => exact Or.inl rfl
  | false =>
    unfold store_file_metadata insertOne
    by_cases hany : (db.any fun x =>
        decide (x.file_id = (docOfMeta fid m n1 n2).file_id)) = true
    · simp [hany]
    · simp [hany]

/-- A metadata store call preserves the unique-index invariant. -/
theorem wellFormed_store (db : MetaDB) (fid : String) (m : MetaIn)
    (n1 n2 : Int) (r : Bool) (wf : wellFormed db) :
    wellFormed (store_file_metadata db fid m n1 n2 r).2 := by
  cases r with
  | true => exact wf
  | false =>
    unfold store_file_metadata insertOne
    cases hany : (db.any fun x =>
        decide (x.file_id = (docOfMeta fid m n1 n2).file_id)) with
    | true => simpa [hany] using wf
    | false =>
      have hforall := List.any_eq_false.mp hany
      have hnin : (docOfMeta fid m n1 n2).file_id
          ∉ db.map (fun x => x.file_id) := by
        intro hmem
        rcases List.mem_map.mp hmem with ⟨x, hx, hfx⟩
        exact absurd hfx (by simpa using hforall x hx)
      show wellFormed (db ++ [docOfMeta fid m n1 n2])
      show (List.map (fun x => x.file_id)
        (db ++ [docOfMeta fid m n1 n2])).Nodup
      rw [List.map_append]
      apply List.Nodup.append wf (List.nodup_singleton _)
      intro a ha hb
      have hab : a = (docOfMeta fid m n1 n2).file_id := by simpa using hb
      exact hnin (hab ▸ ha)

/-- A metadata store call keeps earlier records and their counters
non-negative, given a non-negative initial counter. -/
theorem nonneg_store (db : MetaDB) (fid : String) (m : MetaIn)
    (n1 n2 : Int) (r : Bool) (hm : 0 ≤ m.reads)
    (h : ∀ x ∈ db, 0 ≤ x.reads) :
    ∀ x ∈ (store_file_metadata db fid m n1 n2 r).2, 0 ≤ x.reads := by
  rcases store_file_metadata_snd_cases db fid m n1 n2 r with hc | hc <;>
    rw [hc]
  · exact h
  · intro x hx
    rcases List.mem_append.mp hx with hx | hx
    · exact h x hx
    · have hxd : x = docOfMeta fid m n1 n2 := by simpa using hx
      rw [hxd]
      exact hm

/-- A metadata store call does not move `findOne` at an id already
present. -/
theorem findOne_store_step {db : MetaDB} {g : String} {d : FileDoc}
    (fid : String) (m : MetaIn) (n1 n2 : Int) (r : Bool)
    (hd : findOne db g = some d) :
    findOne (store_file_metadata db fid m n1 n2 r).2 g = some d := by
  rcases store_file_metadata_snd_cases db fid m n1 n2 r with hc | hc <;>
    rw [hc]
  · exact hd
  · exact findOne_append_some _ hd

/-- A consume call never increases the record's counter. -/
theorem consume_step_mono {db : MetaDB} {g fid : String} {d d2 : FileDoc}
    (r : Bool) (wf : wellFormed db) (hd : findOne db g = some d)
    (hd2 : findOne (update_file_reads db fid r).2 g = some d2) :
    d2.reads ≤ d.reads := by
  cases r with
  | true =>
    have hd2b : findOne db g = some d2 := hd2
    have hdd : d = d2 := Option.some.inj (hd.symm.trans hd2b)
    rw [hdd]
  | false =>
    have hd2b : findOne (updateOneDec db fid).1 g = some d2 := hd2
    by_cases hg : g = fid
    · subst hg
      rcases findOne_updateOneDec_self wf hd with h | ⟨hr, h⟩
      · rw [h] at hd2b
        have hdd : d = d2 := Option.some.inj hd2b
        rw [hdd]
      · rw [h] at hd2b
        have hdd : { d with reads := d.reads - 1 } = d2 :=
          Option.some.inj hd2b
        rw [← hdd]
        show d.reads - 1 ≤ d.reads
        omega
    · rw [findOne_updateOneDec_ne hg] at hd2b
      have hdd : d = d2 := Option.some.inj (hd.symm.trans hd2b)
      rw [hdd]

/-- A TTL sweep either removes the record or leaves it untouched. -/
theorem sweep_step_id {db : MetaDB} {g : String} {d d2 : FileDoc}
    (now : Int) (wf : wellFormed db) (hd : findOne db g = some d)
    (hd2 : findOne (ttlSweep db now) g = some d2) : d2 = d := by
  apply findOne_sub_unique wf hd _ hd2
  intro y hy
  exact (List.mem_filter.mp hy).1

/-- Across any single operation, the counter of a record present before
and after does not increase. -/
theorem step_mono {db : MetaDB} {g : String} {d d2 : FileDoc} {op : Op}
    (wf : wellFormed db) (hd : findOne db g = some d)
    (hd2 : findOne (applyOp db op) g = some d2) : d2.reads ≤ d.reads := by
  cases op with
  | store fid m n1 n2 r =>
    have hstep := findOne_store_step fid m n1 n2 r hd
    have hd2b : findOne (store_file_metadata db fid m n1 n2 r).2 g
        = some d2 := hd2
    have hdd : d = d2 := Option.some.inj (hstep.symm.trans hd2b)
    rw [hdd]
  | consume fid r => exact consume_step_mono r wf hd hd2
  | sweep now =>
    rw [sweep_step_id now wf hd hd2]

/-- Every operation preserves the unique-index invariant. -/
theorem wellFormed_step (db : MetaDB) (op : Op) (wf : wellFormed db) :
    wellFormed (applyOp db op) := by
  cases op with
  | store fid m n1 n2 r => exact wellFormed_store db fid m n1 n2 r wf
  | consume fid r =>
    cases r with
    | true => exact wf
    | false => exact updateOneDec_wellFormed fid wf
  | sweep now =>
    have hsub : List.Sublist ((ttlSweep db now).map (fun x => x.file_id))
        (db.map (fun x => x.file_id)) :=
      List.Sublist.map (fun x => x.file_id) (List.filter_sublist db)
    exact List.Nodup.sublist hsub wf

/-- Every operation keeps all counters non-negative. -/
theorem nonneg_step (db : MetaDB) (op : Op) (hop : opNonneg op = true)
    (h : ∀ x ∈ db, 0 ≤ x.reads) : ∀ x ∈ applyOp db op, 0 ≤ x.reads := by
  cases op with
  | store fid m n1 n2 r =>
    have hm : 0 ≤ m.reads := by simpa [opNonneg] using hop
    exact nonneg_store db fid m n1 n2 r hm h
  | consume fid r =>
    cases r with
    | true => exact h
    | false =>
      intro x hx
      have hxb : x ∈ (updateOneDec db fid).1 := hx
      rcases updateOneDec_mem hxb with hmem | ⟨d, hdmem, hdr, rfl⟩
      · exact h x hmem
      · show (0 : Int) ≤ d.reads - 1
        omega
  | sweep now =>
    intro x hx
    exact h x (List.mem_filter.mp hx).1

/-- Across any operation sequence throughout which the record stays
present, its counter never increases. -/
theorem seq_mono {db : MetaDB} {g : String} {d : FileDoc} {ops : List Op}
    (wf : wellFormed db) (hd : findOne db g = some d)
    (hpres : presentThrough db g ops = true) :
    ∃ d2, findOne (applySeq db ops) g = some d2 ∧ d2.reads ≤ d.reads := by
  induction ops generalizing db d with
  | nil => exact ⟨d, hd, le_refl _⟩
  | cons op rest ih =>
    rw [presentThrough, Bool.and_eq_true] at hpres
    rcases hpres with ⟨hsome, hrest⟩
    rcases Option.isSome_iff_exists.mp hsome with ⟨d1, hd1⟩
    have hle1 := step_mono wf hd hd1
    have wf1 := wellFormed_step db op wf
    rcases ih wf1 hd1 hrest with ⟨d2, hd2, hle2⟩
    exact ⟨d2, hd2, le_trans hle2 hle1⟩

/-- Across any operation sequence with non-negative initial counters,
all counters stay non-negative. -/
theorem nonneg_seq {db : MetaDB} {ops : List Op}
    (hops : opsNonneg ops = true) (h : ∀ x ∈ db, 0 ≤ x.reads) :
    ∀ x ∈ applySeq db ops, 0 ≤ x.reads := by
  induction ops generalizing db with
  | nil => exact h
  | cons op rest ih =>
    rw [opsNonneg, List.all_cons, Bool.and_eq_true] at hops
    exact ih hops.2 (nonneg_step db op hops.1 h)

/-- C4: the `reads` counter is initialized to the requested ceiling
carried by the stored metadata, is decremented by exactly one per
successful consume, never increases across any sequence of store,
consume and TTL-sweep operations while the record stays present, and —
when every stored initial counter is non-negative — never becomes
negative. -/
theorem C4_reads_counter_invariants (db : MetaDB) (g fid : String)
    (m : MetaIn) (n1 n2 : Int) (d : FileDoc) (ops : List Op)
    (wf : wellFormed db) (habs : findOne db fid = none)
    (hd : findOne db g = some d) (hr : 0 < d.reads)
    (hpres : presentThrough db g ops = true)
    (hops : opsNonneg ops = true) (hnn : ∀ x ∈ db, 0 ≤ x.reads) :
    (findOne (store_file_metadata db fid m n1 n2 false).2 fid
        = some (docOfMeta fid m n1 n2) ∧
      (docOfMeta fid m n1 n2).reads = m.reads) ∧
    findOne (update_file_reads db g false).2 g
      = some { d with reads := d.reads - 1 } ∧
    (∃ d2, findOne (applySeq db ops) g = some d2 ∧ d2.reads ≤ d.reads) ∧
    (∀ x ∈ applySeq db ops, 0 ≤ x.reads) := by
  refine ⟨⟨?_, rfl⟩, ?_, seq_mono wf hd hpres, nonneg_seq hops hnn⟩
  · have h1 : (store_file_metadata db fid m n1 n2 false).2
        = db ++ [docOfMeta fid m n1 n2] := by
      rw [store_file_metadata_success habs]
    rw [h1, findOne_append_none _ habs]
    exact findOne_cons_pos rfl
  · have h2 : (update_file_reads db g false).2 = (updateOneDec db g).1 :=
      rfl
    rw [h2]
    exact (updateOneDec_found hd hr).2

/-- C4, witness: a record with 2 remaining reads, under a consume, a
sweep and an unrelated store; plus a fresh store under id b with
ceiling 3. -/
theorem C4_reads_counter_witness :
    (findOne (store_file_metadata [⟨"a", "f", 0, 0, 2, 2, 0, 100⟩] "b"
          ⟨50, 3, 3, "g", 1, 1⟩ 5 6 false).2 "b"
        = some (docOfMeta "b" ⟨50, 3, 3, "g", 1, 1⟩ 5 6) ∧
      (docOfMeta "b" ⟨50, 3, 3, "g", 1, 1⟩ 5 6).reads
        = (MetaIn.mk 50 3 3 "g" 1 1).reads) ∧
    findOne (update_file_reads [⟨"a", "f", 0, 0, 2, 2, 0, 100⟩]
        "a" false).2 "a"
      = some { FileDoc.mk "a" "f" 0 0 2 2 0 100 with
          reads := (FileDoc.mk "a" "f" 0 0 2 2 0 100).reads - 1 } ∧
    (∃ d2, findOne (applySeq [⟨"a", "f", 0, 0, 2, 2, 0, 100⟩]
        [.consume "a" false, .sweep 50,
          .store "c" ⟨9, 1, 1, "h", 0, 0⟩ 0 0 false]) "a" = some d2 ∧
      d2.reads ≤ (FileDoc.mk "a" "f" 0 0 2 2 0 100).reads) ∧
    (∀ x ∈ applySeq [⟨"a", "f", 0, 0, 2, 2, 0, 100⟩]
        [.consume "a" false, .sweep 50,
          .store "c" ⟨9, 1, 1, "h", 0, 0⟩ 0 0 false],
      0 ≤ x.reads) :=
  C4_reads_counter_invariants [⟨"a", "f", 0, 0, 2, 2, 0, 100⟩] "a" "b"
    ⟨50, 3, 3, "g", 1, 1⟩ 5 6 (FileDoc.mk "a" "f" 0 0 2 2 0 100)
    [.consume "a" false, .sweep 50, .store "c" ⟨9, 1, 1, "h", 0, 0⟩ 0 0 false]
    (by decide) (by decide) (by decide) (by decide) (by decide)
    (by decide) (by decide)
